import Mathlib

/-!
Shallow embedding of the movie/series recommendation core of this repository:
the catalog normalizer (src/data_processing.py), the enhanced recommender
(src/enhanced_recommendation.py: fit, _calculate_preference_scores,
get_recommendations, get_similar_movies) and the basic recommender's
get_similar_movies (src/recommendation.py).

Modelling conventions:
* pandas cells that can hold NaN are modelled as Option String; Python's
  str(x) on such a cell is pyStr (None/NaN prints as "nan" after str()).
* Python str.strip() is pyStrip, str.lower() is pyLower,
  s.split(',') is pySplitComma; all are structural recursions over the
  underlying character list.
* numpy float64 scores and ratings are modelled as exact rationals.
* np.argsort (default quicksort) guarantees only that it returns a
  permutation of the index range along which the values are
  non-decreasing; the relative order of equal values is unspecified for
  larger arrays. It is modelled here by one admissible refinement (a
  stable ascending sort), and no claim theorem relies on the refinement's
  tie order. Python's sorted(..., reverse=True) IS guaranteed stable and
  is modelled exactly.
* numpy fancy indexing scores[i] raises IndexError when i is out of
  bounds; fallible code therefore lives in Except String.
-/

namespace MovieRec

/-- Python str.strip(): drop leading and trailing whitespace. -/
def pyStrip (s : String) : String :=
  String.mk (((s.data.dropWhile Char.isWhitespace).reverse.dropWhile Char.isWhitespace).reverse)

/-- Python s.split(',') over the character list: split at every comma,
keeping empty pieces. -/
def splitCommaChars : List Char → List (List Char)
  | [] => [[]]
  | c :: rest =>
    if c = ',' then [] :: splitCommaChars rest
    else
      match splitCommaChars rest with
      | [] => [[c]]
      | piece :: pieces => (c :: piece) :: pieces

/-- Python s.split(','). -/
def pySplitComma (s : String) : List String :=
  (splitCommaChars s.data).map String.mk

/-- Python str.lower() (the catalog's names are ASCII, for which
Char.toLower agrees with Python). -/
def pyLower (s : String) : String :=
  String.mk (s.data.map Char.toLower)

/-- Code-point lexicographic comparison of character lists, as Python
compares strings. -/
def charListLe : List Char → List Char → Bool
  | [], _ => true
  | _ :: _, [] => false
  | a :: s, b :: t =>
    if a.toNat < b.toNat then true
    else if b.toNat < a.toNat then false
    else charListLe s t

/-- Code-point lexicographic order on strings (Python string ordering,
used by sorted() inside MultiLabelBinarizer). -/
def strLe (s t : String) : Prop :=
  charListLe s.data t.data = true

instance : DecidableRel strLe := fun s t => by
  unfold strLe; infer_instance

/-- Python str(x) for a pandas cell that may hold NaN: None/NaN renders as "nan". -/
def pyStr (s : Option String) : String :=
  match s with
  | none => "nan"
  | some t => t

/-- Rows of a pandas DataFrame together with their integer index labels,
starting from a given label; df.iterrows() on an unfiltered frame is
enumFrom 0. -/
def enumFrom {α : Type} : Nat → List α → List (Nat × α)
  | _, [] => []
  | k, a :: rest => (k, a) :: enumFrom (k + 1) rest

/-- One raw catalog row as the enhanced recommender's DataFrame holds it.
Fields the claims never touch (poster_url, duration, runtime artwork and
other opaque display pass-through columns) are omitted; year is kept for
completeness. genre, director, actors, description, country are nullable
pandas cells. -/
structure Item where
  title : String
  type : String
  language : String
  genre : Option String
  director : Option String
  actors : Option String
  description : Option String
  country : Option String
  imdb_rating : ℚ
  year : Int
deriving DecidableEq, Inhabited

/-- The user_preferences dict of get_recommendations: an absent or falsy
'genres'/'actors'/'directors' key is the empty list; content_type and
language default to "all". -/
structure UserPreferences where
  genres : List String
  actors : List String
  directors : List String
  content_type : String
  language : String
deriving DecidableEq, Inhabited

/-! ## Catalog normalizer (src/data_processing.py) -/

/-- MovieDataProcessor.clean_genres: NaN yields [], otherwise split on
commas, strip each token, and drop empty and "nan" tokens. -/
def clean_genres (genre_string : Option String) : List String :=
  match genre_string with
  | none => []
  | some s => (((pySplitComma s).map pyStrip).filter (fun g => g != "" && g != "nan"))

/-- MovieDataProcessor.clean_actors: same body as clean_genres. -/
def clean_actors (actors_string : Option String) : List String :=
  match actors_string with
  | none => []
  | some s => (((pySplitComma s).map pyStrip).filter (fun a => a != "" && a != "nan"))

/-- MovieDataProcessor.clean_directors: same body as clean_genres. -/
def clean_directors (director_string : Option String) : List String :=
  match director_string with
  | none => []
  | some s => (((pySplitComma s).map pyStrip).filter (fun d => d != "" && d != "nan"))

/-! ## Enhanced fit (src/enhanced_recommendation.py lines 22-63) -/

/-- The genres column built in EnhancedMovieRecommender.fit line 30:
str(x).split(',') with each part stripped; no empty-token filtering. -/
def genresOf (it : Item) : List String :=
  (pySplitComma (pyStr it.genre)).map pyStrip

/-- MultiLabelBinarizer.classes_: the distinct genre tags observed across
the catalog, sorted lexicographically. -/
def mlbClasses (df : List Item) : List String :=
  List.insertionSort strLe ((df.map genresOf).flatten.dedup)

/-- The fitted genre matrix: one binary row per catalog item over the
sorted genre vocabulary (MultiLabelBinarizer.fit_transform). -/
def genre_matrix (df : List Item) : List (List Nat) :=
  df.map (fun it => (mlbClasses df).map (fun g => if g ∈ genresOf it then 1 else 0))

/-- EnhancedMovieRecommender._create_text_features: the space-joined text
surface of one row. -/
def _create_text_features (it : Item) : String :=
  String.intercalate " "
    [it.title, pyStr it.director, pyStr it.actors, pyStr it.description,
     pyStr it.country, it.type, it.language]

/-- Modelled behaviour of sklearn's TfidfVectorizer(max_features=1000,
stop_words='english').fit_transform, which raises
ValueError("empty vocabulary ...") when no term survives tokenisation and
stop-word filtering. We model it at the granularity fit's success on an
empty catalog depends on: a fit over zero documents always has an empty
vocabulary and raises; non-empty document lists are treated as
vectorisable (their numeric TF-IDF content is never consulted by the
claims, which take the similarity matrix as a snapshot input). -/
def tfidfFitTransform (docs : List String) : Except String Unit :=
  if docs.isEmpty then
    .error "empty vocabulary; perhaps the documents only contain stop words"
  else
    .ok ()

/-- The immutable state EnhancedMovieRecommender.fit installs before
setting is_fitted = True. The TF-IDF and cosine-similarity matrices are
abstracted (queries that read them take the similarity matrix as an
argument). -/
structure Snapshot where
  df : List Item
  genresCol : List (List String)
  genreMatrix : List (List Nat)
deriving DecidableEq, Inhabited

/-- EnhancedMovieRecommender.fit: build the genres column and genre
matrix, then the text features and the TF-IDF matrix; the vectorizer
raises on an empty catalog, in which case no state is installed. -/
def fit (df : List Item) : Except String Snapshot := do
  let genresCol := df.map genresOf
  let gm := genre_matrix df
  let docs := df.map _create_text_features
  let _ ← tfidfFitTransform docs
  return { df := df, genresCol := genresCol, genreMatrix := gm }

/-! ## Preference scorer
(EnhancedMovieRecommender._calculate_preference_scores, lines 135-165) -/

/-- The lowercased, stripped comma-split of a preference or actor string
list entry set, as built inside the scorer. -/
def lowerStripAll (l : List String) : List String :=
  l.map (fun s => pyLower (pyStrip s))

/-- len(set(movie.genres) & set(prefs.genres)): distinct genres of the
row that also occur among the preferred genres (case-sensitive). -/
def genreOverlap (prefs : UserPreferences) (it : Item) : ℚ :=
  (((genresOf it).dedup).filter (fun g => prefs.genres.contains g)).length

/-- len(set of stripped lowercased cast of the row intersected with the
stripped lowercased preferred actors), for a non-null actors cell. -/
def actorOverlap (prefs : UserPreferences) (actorsCell : String) : ℚ :=
  ((((pySplitComma actorsCell).map (fun a => pyLower (pyStrip a))).dedup).filter
    (fun a => (lowerStripAll prefs.actors).contains a)).length

/-- movie.director.strip().lower() in [d.strip().lower() for d in prefs.directors]. -/
def directorHit (prefs : UserPreferences) (directorCell : String) : Bool :=
  (lowerStripAll prefs.directors).contains (pyLower (pyStrip directorCell))

/-- One scoring pass of the scorer: iterate the labelled rows of the
filtered frame; where the per-row contribution is defined (the pandas
notna/if guards of the source), execute scores[label] += contribution —
numpy raises IndexError when the label is not below the array length. -/
def scorePass (f : Item → Option ℚ) : List (Nat × Item) → List ℚ → Except String (List ℚ)
  | [], scores => .ok scores
  | (i, m) :: rest, scores =>
    match f m with
    | none => scorePass f rest scores
    | some v =>
      if h : i < scores.length then
        scorePass f rest (scores.set i (scores.get ⟨i, h⟩ + v))
      else
        .error "index out of bounds for preference score array"

/-- EnhancedMovieRecommender._calculate_preference_scores: a zero array
sized by the (filtered) frame, plus three guarded passes — genres
(weight 2), actors (weight 1.5, skipped per row when the actors cell is
null), directors (+1.5 written only when the director matches). Each
pass runs only when the corresponding preference list is non-empty. -/
def _calculate_preference_scores (rows : List (Nat × Item)) (prefs : UserPreferences) :
    Except String (List ℚ) :=
  let s0 : List ℚ := List.replicate rows.length 0
  (if prefs.genres.isEmpty then pure s0 else
    scorePass (fun m => some (genreOverlap prefs m * 2)) rows s0).bind fun s1 =>
  (if prefs.actors.isEmpty then pure s1 else
    scorePass (fun m => m.actors.map (fun a => actorOverlap prefs a * (3/2))) rows s1).bind fun s2 =>
  (if prefs.directors.isEmpty then pure s2 else
    scorePass (fun m => m.director.bind
      (fun d => if directorHit prefs d then some (3/2) else none)) rows s2).bind fun s3 =>
  pure s3

/-- The cast list of a row under case-insensitive comparison: empty for
a null actors cell. -/
def castLower (it : Item) : List String :=
  match it.actors with
  | none => []
  | some a => (pySplitComma a).map (fun s => pyLower (pyStrip s))

/-- Whether the row's director string, lowercased, is among the
lowercased preferred directors (false for a null director cell). -/
def directorMatch (prefs : UserPreferences) (it : Item) : Bool :=
  match it.director with
  | none => false
  | some d => directorHit prefs d

/-- The specification's closed per-item formula for the raw preference
score (spec section 4.4): 2 per shared genre, 1.5 per shared
case-insensitive cast name, 1.5 for a director match. Stated from the
spec's words, to be compared with the source's array-filling loop. -/
def specRawScore (prefs : UserPreferences) (it : Item) : ℚ :=
  2 * (((genresOf it).dedup).filter (fun g => prefs.genres.contains g)).length
    + (3/2) * ((castLower it).dedup.filter (fun a => (lowerStripAll prefs.actors).contains a)).length
    + (if directorMatch prefs it then 3/2 else 0)

/-! ## Ranker (EnhancedMovieRecommender.get_recommendations, lines 65-133) -/

/-- numpy ndarray.min over a non-empty array (0 as a junk value for the
empty array, which the source guards against). -/
def minOf : List ℚ → ℚ
  | [] => 0
  | x :: xs => xs.foldl min x

/-- numpy ndarray.max over a non-empty array. -/
def maxOf : List ℚ → ℚ
  | [] => 0
  | x :: xs => xs.foldl max x

/-- Lines 93-98: min-max normalize preference scores; when all scores are
equal the result is np.zeros_like. -/
def normalizePrefScores (xs : List ℚ) : List ℚ :=
  if xs.isEmpty then xs
  else if minOf xs < maxOf xs then
    xs.map (fun x => (x - minOf xs) / (maxOf xs - minOf xs))
  else
    xs.map (fun _ => 0)

/-- Lines 100-105: min-max normalize IMDB ratings; when all ratings are
equal the result is np.ones_like. -/
def normalizeImdbScores (xs : List ℚ) : List ℚ :=
  if xs.isEmpty then xs
  else if minOf xs < maxOf xs then
    xs.map (fun x => (x - minOf xs) / (maxOf xs - minOf xs))
  else
    xs.map (fun _ => 1)

/-- Lines 70-80: filter the fitted frame by content type and language
(each only when the preference differs from "all"); row labels are the
original catalog indices and survive filtering. -/
def filteredRows (df : List Item) (prefs : UserPreferences) : List (Nat × Item) :=
  let r0 := if prefs.content_type == "all" then enumFrom 0 df
            else (enumFrom 0 df).filter (fun p => p.2.type == prefs.content_type)
  if prefs.language == "all" then r0
  else r0.filter (fun p => p.2.language == prefs.language)

/-- The stable ascending argsort relation: order positions by value,
ties by position. -/
def keyLe (xs : List ℚ) (i j : Nat) : Prop :=
  xs.getD i 0 < xs.getD j 0 ∨ (xs.getD i 0 = xs.getD j 0 ∧ i ≤ j)

instance (xs : List ℚ) : DecidableRel (keyLe xs) := fun i j => by
  unfold keyLe; infer_instance

/-- The reversed argsort relation: order positions by value descending,
ties by position descending. -/
def keyGe (xs : List ℚ) (i j : Nat) : Prop :=
  xs.getD j 0 < xs.getD i 0 ∨ (xs.getD i 0 = xs.getD j 0 ∧ j ≤ i)

instance (xs : List ℚ) : DecidableRel (keyGe xs) := fun i j => by
  unfold keyGe; infer_instance

/-- One admissible refinement of np.argsort xs: a correct ascending sort
of the index range by value. numpy's default quicksort guarantees the
result is a permutation of the indices with values non-decreasing along
it, but leaves the relative order of equal values unspecified (it is
insertion-sort stable only for small partitions); the stable tie order
chosen here is a modelling choice, and no claim theorem below depends
on it — theorems about the ranker assert only tie-independent
properties (permutation, monotonicity of values, truncation). -/
def argsortAsc (xs : List ℚ) : List Nat :=
  List.insertionSort (keyLe xs) (List.range xs.length)

/-- np.argsort(xs)[::-1]: the reversal of the admissible argsort
refinement; values are non-increasing along it, the order of equal
values again being a modelling choice that no claim theorem uses. -/
def argsortDesc (xs : List ℚ) : List Nat :=
  (argsortAsc xs).reverse

/-- Lines 86-108: raw preference scores over the filtered frame, both
normalizations, and the weighted blend
rating_weight * imdb + preference_weight * pref. -/
def combinedScores (df : List Item) (prefs : UserPreferences)
    (rating_weight preference_weight : ℚ) : Except String (List ℚ) :=
  let rows := filteredRows df prefs
  (_calculate_preference_scores rows prefs).bind fun prefScores =>
    let imdbScores := rows.map (fun p => p.2.imdb_rating)
    let prefN := normalizePrefScores prefScores
    let imdbN := normalizeImdbScores imdbScores
    pure (List.zipWith (fun q p => rating_weight * q + preference_weight * p) imdbN prefN)

/-- EnhancedMovieRecommender.get_recommendations on a fitted snapshot:
filter, score, normalize, blend, argsort descending, truncate to
min(top_n, len(filtered)); each output entry is the original catalog
index of the row together with its combined score. An empty filtered
frame returns [] (not an error). -/
def get_recommendations (df : List Item) (prefs : UserPreferences)
    (top_n : Nat) (rating_weight preference_weight : ℚ) :
    Except String (List (Nat × ℚ)) :=
  let rows := filteredRows df prefs
  if rows.isEmpty then pure []
  else
    (combinedScores df prefs rating_weight preference_weight).bind fun combined =>
      pure (((argsortDesc combined).take (min top_n rows.length)).map
        (fun i => ((rows.getD i (0, default)).1, combined.getD i 0)))

/-! ## Similarity queries -/

/-- df[df['title'] == title].index[0]: the first row label whose title
matches, if any. -/
def firstTitleIdx (df : List Item) (title : String) : Option Nat :=
  ((enumFrom 0 df).find? (fun p => p.2.title == title)).map Prod.fst

/-- Python sorted(enumerate(row), key=score, reverse=True): stable, so
equal scores keep ascending index order. -/
def simDescRel (a b : Nat × ℚ) : Prop :=
  b.2 < a.2 ∨ (a.2 = b.2 ∧ a.1 ≤ b.1)

instance : DecidableRel simDescRel := fun a b => by
  unfold simDescRel; infer_instance

/-- EnhancedMovieRecommender.get_similar_movies on a fitted snapshot
with similarity matrix sim: an absent title returns [] (lines 211-213);
otherwise sort the enumerated similarity row descending (stable) and
slice [1:min(top_n+1, len)], dropping the first entry as "itself". -/
def get_similar_movies (df : List Item) (sim : List (List ℚ))
    (title : String) (top_n : Nat) : Except String (List (Nat × ℚ)) :=
  match firstTitleIdx df title with
  | none => .ok []
  | some i =>
    let row := sim.getD i []
    let ss := List.insertionSort simDescRel (enumFrom 0 row)
    .ok ((ss.take (min (top_n + 1) ss.length)).drop 1)

/-- MovieRecommender.get_similar_movies (src/recommendation.py lines
117-146) on a fitted snapshot: an absent title raises ValueError;
otherwise np.argsort(row)[::-1][1:top_n+1] with the row's scores. -/
def basic_get_similar_movies (df : List Item) (sim : List (List ℚ))
    (title : String) (top_n : Nat) : Except String (List (Nat × ℚ)) :=
  match firstTitleIdx df title with
  | none => .error "Movie not found in dataset"
  | some i =>
    let row := sim.getD i []
    let idxs := ((argsortDesc row).drop 1).take top_n
    .ok (idxs.map (fun j => (j, row.getD j 0)))

/-! ## Specification-side orderings and predicates -/

/-- All genre tags observed across the catalog (with repetition), the
input MultiLabelBinarizer collects its classes from. -/
def allGenres (df : List Item) : List String :=
  (df.map genresOf).flatten

/-- Ordering on (original index, combined score) pairs: combined score
descending, ties by original index descending. -/
def scoreDescIdxDesc (a b : Nat × ℚ) : Prop :=
  b.2 < a.2 ∨ (a.2 = b.2 ∧ b.1 ≤ a.1)

instance : DecidableRel scoreDescIdxDesc := fun a b => by
  unfold scoreDescIdxDesc; infer_instance

/-- Ordering of labelled rows purely by quality rating descending, ties
by original catalog index descending. -/
def qualityDescIdxDesc (a b : Nat × Item) : Prop :=
  b.2.imdb_rating < a.2.imdb_rating ∨ (a.2.imdb_rating = b.2.imdb_rating ∧ b.1 ≤ a.1)

instance : DecidableRel qualityDescIdxDesc := fun a b => by
  unfold qualityDescIdxDesc; infer_instance

/-- Ordering of labelled rows by quality rating descending, ties by
original catalog index ascending — the ordering claims C1 and C7 assert. -/
def qualityDescIdxAsc (a b : Nat × Item) : Prop :=
  b.2.imdb_rating < a.2.imdb_rating ∨ (a.2.imdb_rating = b.2.imdb_rating ∧ a.1 ≤ b.1)

instance : DecidableRel qualityDescIdxAsc := fun a b => by
  unfold qualityDescIdxAsc; infer_instance

/-- Ordering on labels by quality rating of the catalog row they name,
descending, ties by label descending. -/
def labelQualityDesc (df : List Item) (i j : Nat) : Prop :=
  (df.getD j default).imdb_rating < (df.getD i default).imdb_rating ∨
    ((df.getD i default).imdb_rating = (df.getD j default).imdb_rating ∧ j ≤ i)

instance (df : List Item) : DecidableRel (labelQualityDesc df) := fun i j => by
  unfold labelQualityDesc; infer_instance

/-- Whether _calculate_preference_scores executes a scores[label] write
for this row: always for a non-empty genre preference; for a non-empty
actor preference when the actors cell is non-null; for a non-empty
director preference when the director cell matches. -/
def writeAttempted (prefs : UserPreferences) (m : Item) : Prop :=
  prefs.genres ≠ [] ∨
    (prefs.actors ≠ [] ∧ m.actors ≠ none) ∨
    (prefs.directors ≠ [] ∧ directorMatch prefs m = true)

instance (prefs : UserPreferences) : DecidablePred (writeAttempted prefs) := fun m => by
  unfold writeAttempted; infer_instance

/-! ## Concrete data for witnesses and counterexamples -/

/-- A movie with rating 8. -/
def exA : Item :=
  { title := "A", type := "movie", language := "English",
    genre := some "Drama", director := some "D One", actors := some "X, Y",
    description := some "a drama", country := some "USA", imdb_rating := 8,
    year := 1990 }

/-- A second movie with the same rating 8 as exA, so that combined
scores tie. -/
def exB : Item :=
  { title := "B", type := "movie", language := "English",
    genre := some "Crime, Drama", director := some "D Two", actors := some "Y, Z",
    description := some "a crime drama", country := some "USA", imdb_rating := 8,
    year := 1995 }

/-- A series with a null actors cell, retained alone by a content-type
filter so that its label 1 is out of bounds for the filtered score
array. -/
def exSeries : Item :=
  { title := "C", type := "series", language := "English",
    genre := some "Drama", director := some "D One", actors := none,
    description := some "a series", country := some "USA", imdb_rating := 9,
    year := 2000 }

/-- Preferences with no genre/actor/director signal and no filters. -/
def exNoPrefs : UserPreferences :=
  { genres := [], actors := [], directors := [], content_type := "all", language := "all" }

/-- Preferences with only an actor signal and a series filter: the
filtered frame keeps exSeries alone (label 1, array size 1), but its
null actors cell makes the scorer skip the out-of-range write. -/
def exActorPrefs : UserPreferences :=
  { genres := [], actors := ["X"], directors := [], content_type := "series", language := "all" }

/-- Preferences with a genre signal and a series filter: the genre pass
writes unconditionally, so the out-of-range label 1 raises. -/
def exGenrePrefs : UserPreferences :=
  { genres := ["Drama"], actors := [], directors := [], content_type := "series", language := "all" }

/-! ## List and string helper lemmas -/

lemma dropWhile_dropWhile (p : Char → Bool) (l : List Char) :
    (l.dropWhile p).dropWhile p = l.dropWhile p := by
  induction l with
  | nil => rfl
  | cons a t ih =>
    by_cases h : p a
    · simpa [List.dropWhile_cons, h] using ih
    · simp [List.dropWhile_cons, h]

lemma head?_dropWhile_false (p : Char → Bool) (l : List Char) :
    ∀ a, (l.dropWhile p).head? = some a → p a = false := by
  induction l with
  | nil => intro a h; simp at h
  | cons x t ih =>
    intro a h
    by_cases hx : p x
    · exact ih a (by simpa [List.dropWhile_cons, hx] using h)
    · rw [List.dropWhile_cons, if_neg hx] at h
      simp only [List.head?_cons, Option.some.injEq] at h
      rw [← h]
      simpa using hx

/-- Stripping is idempotent: the output of pyStrip has no leading or
trailing whitespace left to remove. -/
lemma pyStrip_idem (s : String) : pyStrip (pyStrip s) = pyStrip s := by
  unfold pyStrip
  set w := Char.isWhitespace with hw
  set l1 := s.data.dropWhile w with hl1
  set l2 := l1.reverse.dropWhile w with hl2
  have hdata : (String.mk (l2.reverse)).data = l2.reverse := rfl
  rw [hdata]
  rcases hl2e : l2 with _ | ⟨a, l2t⟩
  · simp
  · -- the head of l2.reverse is the head of l1, which is not whitespace
    have hsuf : List.IsSuffix l2 l1.reverse := by
      rw [hl2]; exact List.dropWhile_suffix w
    obtain ⟨pre, hpre⟩ := hsuf
    have hlast : l2.getLast? = l1.head? := by
      have h1 : l1.reverse.getLast? = l1.head? := List.getLast?_reverse l1
      rw [← hpre] at h1
      rw [List.getLast?_append] at h1
      rcases hgl : l2.getLast? with _ | b
      · rw [hl2e] at hgl; simp at hgl
      · rw [hgl] at h1; simpa using h1
    have hselfinner : l2.reverse.dropWhile w = l2.reverse := by
      rcases hrev : l2.reverse with _ | ⟨b, rest⟩
      · rfl
      · have hb : l2.reverse.head? = some b := by rw [hrev]; rfl
        rw [List.head?_reverse] at hb
        rw [hlast] at hb
        have hbw : w b = false := head?_dropWhile_false w s.data b (by rw [← hl1]; exact hb)
        simp [List.dropWhile_cons, hbw]
    rw [← hl2e, hselfinner, List.reverse_reverse]
    rw [hl2, dropWhile_dropWhile]

/-- Every member of a clean_genres-style filtered split is a stripped
token. -/
lemma mem_clean_stripped {s : String} {t : String}
    (h : t ∈ ((pySplitComma s).map pyStrip).filter (fun g => g != "" && g != "nan")) :
    pyStrip t = t := by
  have h1 := List.mem_of_mem_filter h
  obtain ⟨u, _, hu⟩ := List.mem_map.mp h1
  rw [← hu]
  exact pyStrip_idem u

lemma mem_clean_not_null {s : String} {t : String}
    (h : t ∈ ((pySplitComma s).map pyStrip).filter (fun g => g != "" && g != "nan")) :
    t ≠ "" ∧ t ≠ "nan" := by
  have h2 := List.of_mem_filter h
  constructor
  · intro he; rw [he] at h2; simp at h2
  · intro he; rw [he] at h2; simp at h2

/-! ## Claim theorems: normalizer (C8) -/

/-- C8 counterexample: the normalizer does not deduplicate — the claim's
"deduplicated ... sequence" fails on the concrete input "Drama, Drama",
whose cleaned genre list keeps both copies. -/
theorem clean_genres_keeps_duplicates_cex :
    clean_genres (some "Drama, Drama") = ["Drama", "Drama"] ∧
      ¬ (clean_genres (some "Drama, Drama")).Nodup := by
  constructor
  · decide
  · decide

/-- C8 (amended): the normalizer splits each comma-delimited multi-value
field (genre, cast, director) into a trimmed, non-empty ordered sequence
of strings, duplicates preserved; a missing/null field yields an empty
sequence rather than an error; after normalization these lists never
contain empty or null-equivalent ("nan") tokens, and every token is
fully stripped. -/
theorem normalizer_trims_and_drops_null_tokens (s : Option String) :
    (clean_genres none = [] ∧ clean_actors none = [] ∧ clean_directors none = []) ∧
      (∀ t, t ∈ clean_genres s ∨ t ∈ clean_actors s ∨ t ∈ clean_directors s →
        t ≠ "" ∧ t ≠ "nan" ∧ pyStrip t = t) := by
  refine ⟨⟨rfl, rfl, rfl⟩, ?_⟩
  intro t ht
  rcases s with _ | u
  · rcases ht with h | h | h <;> simp [clean_genres, clean_actors, clean_directors] at h
  · have hm : t ∈ ((pySplitComma u).map pyStrip).filter (fun g => g != "" && g != "nan") := by
      rcases ht with h | h | h
      · simpa [clean_genres] using h
      · simpa [clean_actors] using h
      · simpa [clean_directors] using h
    exact ⟨(mem_clean_not_null hm).1, (mem_clean_not_null hm).2, mem_clean_stripped hm⟩

/-- C8 witness: the amended theorem applied at the concrete field
value " Drama ,, nan , Crime". -/
theorem normalizer_trims_and_drops_null_tokens_witness :
    "Drama" ≠ "" ∧ "Drama" ≠ "nan" ∧ pyStrip "Drama" = "Drama" :=
  (normalizer_trims_and_drops_null_tokens (some " Drama ,, nan , Crime")).2
    "Drama" (Or.inl (by decide))

/-! ## Claim theorems: fit on the empty catalog (C9) -/

/-- C9: fit on a catalog of zero items fails (the TF-IDF vectorizer
raises on an empty document list) and installs no snapshot. -/
theorem fit_empty_catalog_errors :
    fit ([] : List Item) =
      .error "empty vocabulary; perhaps the documents only contain stop words" := by
  rfl

/-! ## Claim theorems: similar-to on an absent identifier (C4) -/

lemma enumFrom_snd_mem {α : Type} {p : Nat × α} :
    ∀ {k : Nat} {l : List α}, p ∈ enumFrom k l → p.2 ∈ l := by
  intro k l
  induction l generalizing k with
  | nil => intro h; simp [enumFrom] at h
  | cons a t ih =>
    intro h
    rcases (List.mem_cons).mp h with h | h
    · rw [h]; exact List.mem_cons_self a t
    · exact List.mem_cons_of_mem a (ih h)

lemma enumFrom_length {α : Type} : ∀ (k : Nat) (l : List α), (enumFrom k l).length = l.length
  | _, [] => rfl
  | k, _ :: t => by simp [enumFrom, enumFrom_length (k + 1) t]

lemma enumFrom_getElem {α : Type} (d : α) :
    ∀ (k : Nat) (l : List α) (i : Nat), i < l.length →
      (enumFrom k l).getD i (0, d) = (k + i, l.getD i d) := by
  intro k l
  induction l generalizing k with
  | nil => intro i h; simp at h
  | cons a t ih =>
    intro i h
    cases i with
    | zero => simp [enumFrom]
    | succ j =>
      have hj : j < t.length := by simpa using h
      have := ih (k + 1) j hj
      simp only [enumFrom, List.getD_cons_succ, this]
      congr 1
      omega

lemma mem_enumFrom_char {α : Type} (d : α) {p : Nat × α} :
    ∀ {k : Nat} {l : List α}, p ∈ enumFrom k l →
      k ≤ p.1 ∧ p.1 - k < l.length ∧ l.getD (p.1 - k) d = p.2 := by
  intro k l
  induction l generalizing k with
  | nil => intro h; simp [enumFrom] at h
  | cons a t ih =>
    intro h
    rcases (List.mem_cons).mp h with h | h
    · rw [h]; simp
    · obtain ⟨h1, h2, h3⟩ := ih h
      refine ⟨by omega, by simp; omega, ?_⟩
      have hpk : p.1 - k = (p.1 - (k + 1)) + 1 := by omega
      rw [hpk, List.getD_cons_succ]
      exact h3

lemma enumFrom_map_fst_pairwise {α : Type} :
    ∀ (k : Nat) (l : List α), ((enumFrom k l).map Prod.fst).Pairwise (· < ·) := by
  intro k l
  induction l generalizing k with
  | nil => simp [enumFrom]
  | cons a t ih =>
    simp only [enumFrom, List.map_cons, List.pairwise_cons]
    refine ⟨?_, ih (k + 1)⟩
    intro x hx
    obtain ⟨p, hp, hpx⟩ := List.mem_map.mp hx
    have := (mem_enumFrom_char a hp).1
    omega

lemma firstTitleIdx_eq_none {df : List Item} {title : String}
    (h : ∀ it ∈ df, it.title ≠ title) : firstTitleIdx df title = none := by
  unfold firstTitleIdx
  rw [Option.map_eq_none']
  rw [List.find?_eq_none]
  intro p hp
  simpa using h p.2 (enumFrom_snd_mem hp)

/-- C4 counterexample: with title "Z" absent from the fitted two-item
catalog, the enhanced recommender's get_similar_movies returns the empty
list and no error — the claim asserts it must fail with NotFound. -/
theorem enhanced_similar_absent_returns_empty_cex :
    get_similar_movies [exA, exB] [[1, 0], [0, 1]] "Z" 5 = .ok [] ∧
      ∀ e : String, get_similar_movies [exA, exB] [[1, 0], [0, 1]] "Z" 5 ≠ .error e := by
  constructor
  · with_unfolding_all rfl
  · intro e he
    rw [show get_similar_movies [exA, exB] [[1, 0], [0, 1]] "Z" 5 = .ok [] from by
      with_unfolding_all rfl] at he
    exact Except.noConfusion he

/-- C4 (amended): on any fitted snapshot, a similar-items query for an
identifier absent from the catalog fails with the not-found error in the
basic MovieRecommender.get_similar_movies, while
EnhancedMovieRecommender.get_similar_movies instead returns an empty
list (and no error). -/
theorem similar_absent_basic_errors_enhanced_empty
    (df : List Item) (sim : List (List ℚ)) (title : String) (top_n : Nat)
    (h : ∀ it ∈ df, it.title ≠ title) :
    basic_get_similar_movies df sim title top_n = .error "Movie not found in dataset" ∧
      get_similar_movies df sim title top_n = .ok [] := by
  constructor
  · unfold basic_get_similar_movies
    rw [firstTitleIdx_eq_none h]
  · unfold get_similar_movies
    rw [firstTitleIdx_eq_none h]

/-- C4 witness: the amended theorem applied at a concrete snapshot and
absent title. -/
theorem similar_absent_basic_errors_enhanced_empty_witness :
    basic_get_similar_movies [exA, exB] [[1, 0], [0, 1]] "Z" 5 =
        .error "Movie not found in dataset" ∧
      get_similar_movies [exA, exB] [[1, 0], [0, 1]] "Z" 5 = .ok [] :=
  similar_absent_basic_errors_enhanced_empty [exA, exB] [[1, 0], [0, 1]] "Z" 5
    (by decide)

/-! ## Claim theorems: similar-to can return the queried item (C5) -/

/-- C5: failing input for the claim that the result of get_similar_movies
never contains the queried item. With two items of identical text
features the similarity matrix is all ones; querying the title of item 1
then returns item 1 itself: the code drops the first entry of the
stably sorted score list assuming it is the queried item, but the tie at
score 1 places item 0 first. -/
theorem enhanced_similar_contains_queried_item :
    firstTitleIdx [exA, exB] "B" = some 1 ∧
      get_similar_movies [exA, exB] [[1, 1], [1, 1]] "B" 5 = .ok [(1, 1)] := by
  constructor
  · decide
  · with_unfolding_all rfl

/-! ## The code-point order is a linear order -/

lemma charListLe_total : ∀ s t : List Char, charListLe s t = true ∨ charListLe t s = true := by
  intro s
  induction s with
  | nil => intro t; left; rfl
  | cons a s ih =>
    intro t
    cases t with
    | nil => right; rfl
    | cons b t =>
      by_cases h1 : a.toNat < b.toNat
      · left; simp [charListLe, h1]
      · by_cases h2 : b.toNat < a.toNat
        · right; simp [charListLe, h2]
        · rcases ih t with h | h
          · left; simpa [charListLe, h1, h2] using h
          · right; simpa [charListLe, h1, h2] using h

lemma charListLe_trans : ∀ s t u : List Char,
    charListLe s t = true → charListLe t u = true → charListLe s u = true := by
  intro s
  induction s with
  | nil => intro t u _ _; rfl
  | cons a s ih =>
    intro t u hst htu
    cases t with
    | nil => simp [charListLe] at hst
    | cons b t =>
      cases u with
      | nil => simp [charListLe] at htu
      | cons c u =>
        simp only [charListLe] at hst htu ⊢
        by_cases hab : a.toNat < b.toNat
        · by_cases hbc : b.toNat < c.toNat
          · rw [if_pos (by omega : a.toNat < c.toNat)]
          · by_cases hcb : c.toNat < b.toNat
            · rw [if_neg hbc, if_pos hcb] at htu
              exact absurd htu (by simp)
            · rw [if_pos (by omega : a.toNat < c.toNat)]
        · by_cases hba : b.toNat < a.toNat
          · rw [if_neg hab, if_pos hba] at hst
            exact absurd hst (by simp)
          · rw [if_neg hab, if_neg hba] at hst
            by_cases hbc : b.toNat < c.toNat
            · rw [if_pos (by omega : a.toNat < c.toNat)]
            · by_cases hcb : c.toNat < b.toNat
              · rw [if_neg hbc, if_pos hcb] at htu
                exact absurd htu (by simp)
              · rw [if_neg hbc, if_neg hcb] at htu
                rw [if_neg (by omega : ¬ a.toNat < c.toNat),
                  if_neg (by omega : ¬ c.toNat < a.toNat)]
                exact ih t u hst htu

lemma charListLe_antisymm : ∀ s t : List Char,
    charListLe s t = true → charListLe t s = true → s = t := by
  intro s
  induction s with
  | nil =>
    intro t _ hts
    cases t with
    | nil => rfl
    | cons b t => simp [charListLe] at hts
  | cons a s ih =>
    intro t hst hts
    cases t with
    | nil => simp [charListLe] at hst
    | cons b t =>
      simp only [charListLe] at hst hts
      by_cases hab : a.toNat < b.toNat
      · rw [if_neg (by omega : ¬ b.toNat < a.toNat), if_pos hab] at hts
        exact absurd hts (by simp)
      · by_cases hba : b.toNat < a.toNat
        · rw [if_neg hab, if_pos hba] at hst
          exact absurd hst (by simp)
        · rw [if_neg hab, if_neg hba] at hst
          rw [if_neg hba, if_neg hab] at hts
          have hnat : a.toNat = b.toNat := by omega
          have hb : a = b := Char.eq_of_val_eq (UInt32.toNat.inj hnat)
          rw [hb, ih t hst hts]

instance : IsTotal String strLe :=
  ⟨fun s t => charListLe_total s.data t.data⟩

instance : IsTrans String strLe :=
  ⟨fun s t u => charListLe_trans s.data t.data u.data⟩

instance : IsAntisymm String strLe :=
  ⟨fun s t hst hts => by
    cases s; cases t
    exact congrArg String.mk (charListLe_antisymm _ _ hst hts)⟩

/-! ## Claim theorems: genre feature matrix (C6) -/

/-- C6: for every fitted catalog, the genre matrix has one row per item;
its column vocabulary mlbClasses is strictly sorted in code-point
lexicographic order; entry (i, j) is 1 exactly when column j's tag is
among item i's split-and-stripped genres; and the vocabulary (hence the
column ordering) depends only on the set of observed genre tags, so two
fits on identical data order columns identically. -/
theorem genre_matrix_rows_and_sorted_columns (df df' : List Item) (snap : Snapshot)
    (hfit : fit df = .ok snap)
    (hmem : ∀ g, g ∈ allGenres df ↔ g ∈ allGenres df') :
    snap.genreMatrix = genre_matrix df ∧
      (genre_matrix df).length = df.length ∧
      (mlbClasses df).Pairwise (fun a b => strLe a b ∧ a ≠ b) ∧
      (∀ i j, i < df.length → j < (mlbClasses df).length →
        (((genre_matrix df).getD i []).getD j 0 = 1 ↔
          (mlbClasses df).getD j "" ∈ genresOf (df.getD i default))) ∧
      mlbClasses df = mlbClasses df' := by
  refine ⟨?_, ?_, ?_, ?_, ?_⟩
  · -- the snapshot stores exactly the fitted genre matrix
    unfold fit at hfit
    rcases hd : df.map _create_text_features with _ | ⟨doc, docs⟩
    · rw [hd] at hfit; simp [tfidfFitTransform, Except.bind] at hfit
    · rw [hd] at hfit
      simp only [tfidfFitTransform, List.isEmpty_cons, Bind.bind, Except.bind,
        if_neg] at hfit
      cases hfit
      rfl
  · simp [genre_matrix]
  · have hs : List.Sorted strLe (mlbClasses df) :=
      List.sorted_insertionSort strLe ((df.map genresOf).flatten.dedup)
    have hn : (mlbClasses df).Nodup :=
      (List.perm_insertionSort strLe ((df.map genresOf).flatten.dedup)).symm.nodup
        ((df.map genresOf).flatten.nodup_dedup)
    exact hs.and hn
  · intro i j hi hj
    have hrow : (genre_matrix df).getD i [] =
        (mlbClasses df).map (fun g => if g ∈ genresOf (df.getD i default) then 1 else 0) := by
      unfold genre_matrix
      rw [List.getD_eq_getElem _ _ (by simpa using hi), List.getElem_map]
      rw [List.getD_eq_getElem _ _ hi]
    rw [hrow, List.getD_eq_getElem _ _ (by simpa using hj), List.getElem_map,
      List.getD_eq_getElem _ _ hj]
    by_cases hg : (mlbClasses df)[j] ∈ genresOf (df.getD i default)
    · simp [hg]
    · simp [hg]
  · have h1 : ((df.map genresOf).flatten.dedup).Perm ((df'.map genresOf).flatten.dedup) := by
      rw [List.perm_ext_iff_of_nodup ((df.map genresOf).flatten.nodup_dedup)
        ((df'.map genresOf).flatten.nodup_dedup)]
      intro g
      rw [List.mem_dedup, List.mem_dedup]
      exact hmem g
    have hperm : (mlbClasses df).Perm (mlbClasses df') :=
      ((List.perm_insertionSort strLe _).trans h1).trans
        (List.perm_insertionSort strLe _).symm
    exact List.eq_of_perm_of_sorted hperm
      (List.sorted_insertionSort strLe _) (List.sorted_insertionSort strLe _)

/-- C6 witness: the theorem applied to a concrete fitted two-item
catalog (compared with itself for the determinism clause). -/
theorem genre_matrix_rows_and_sorted_columns_witness :
    ((fit [exA, exB]).toOption.getD default).genreMatrix = genre_matrix [exA, exB] ∧
      (genre_matrix [exA, exB]).length = [exA, exB].length ∧
      (mlbClasses [exA, exB]).Pairwise (fun a b => strLe a b ∧ a ≠ b) ∧
      (∀ i j, i < [exA, exB].length → j < (mlbClasses [exA, exB]).length →
        (((genre_matrix [exA, exB]).getD i []).getD j 0 = 1 ↔
          (mlbClasses [exA, exB]).getD j "" ∈ genresOf ([exA, exB].getD i default))) ∧
      mlbClasses [exA, exB] = mlbClasses [exA, exB] :=
  genre_matrix_rows_and_sorted_columns [exA, exB] [exA, exB]
    ((fit [exA, exB]).toOption.getD default) (by with_unfolding_all rfl) (fun g => Iff.rfl)

/-! ## Scorer lemmas (towards C2 and C10) -/

lemma list_set_append (pre : List ℚ) (x v : ℚ) (post : List ℚ) :
    (pre ++ x :: post).set pre.length v = pre ++ v :: post := by
  induction pre with
  | nil => rfl
  | cons a t ih =>
    simpa using ih

lemma list_get_append (pre : List ℚ) (x : ℚ) (post : List ℚ)
    (h : pre.length < (pre ++ x :: post).length) :
    (pre ++ x :: post).get ⟨pre.length, h⟩ = x := by
  induction pre with
  | nil => rfl
  | cons a t ih =>
    simpa using ih (by simpa using h)

/-- One scoring pass over rows labelled consecutively from pre.length:
each in-bounds write lands at the row's own slot, adding the per-row
contribution (0 where the pass skips the row). -/
lemma scorePass_enumFrom (f : Item → Option ℚ) (cat : List Item) :
    ∀ (pre post : List ℚ), post.length = cat.length →
      scorePass f (enumFrom pre.length cat) (pre ++ post) =
        .ok (pre ++ List.zipWith (fun s m => s + ((f m).getD 0)) post cat) := by
  induction cat with
  | nil =>
    intro pre post h
    rw [List.length_eq_zero.mp h]
    rfl
  | cons m cat ih =>
    intro pre post h
    cases post with
    | nil => simp at h
    | cons x post' =>
      have hlen : post'.length = cat.length := by simpa using h
      show scorePass f ((pre.length, m) :: enumFrom (pre.length + 1) cat)
          (pre ++ x :: post') = _
      cases hf : f m with
      | none =>
        simp only [scorePass, hf]
        have hstep := ih (pre ++ [x]) post' hlen
        simp only [List.length_append, List.length_cons, List.length_nil,
          List.append_assoc, List.singleton_append] at hstep
        rw [hstep]
        simp [hf]
      | some v =>
        have hb : pre.length < (pre ++ x :: post').length := by
          simp
        simp only [scorePass, hf, dif_pos hb]
        rw [list_get_append pre x post' hb, list_set_append]
        have hstep := ih (pre ++ [x + v]) post' hlen
        simp only [List.length_append, List.length_cons, List.length_nil,
          List.append_assoc, List.singleton_append] at hstep
        rw [hstep]
        simp [hf]

lemma scorePass_length {f : Item → Option ℚ} :
    ∀ {rows : List (Nat × Item)} {s t : List ℚ},
      scorePass f rows s = .ok t → t.length = s.length := by
  intro rows
  induction rows with
  | nil => intro s t h; cases h; rfl
  | cons p rest ih =>
    intro s t h
    rcases p with ⟨i, m⟩
    cases hf : f m with
    | none =>
      simp only [scorePass, hf] at h
      exact ih h
    | some v =>
      simp only [scorePass, hf] at h
      by_cases hb : i < s.length
      · rw [dif_pos hb] at h
        have := ih h
        simpa using this
      · rw [dif_neg hb] at h
        cases h

lemma scorePass_ok_bounds {f : Item → Option ℚ} :
    ∀ {rows : List (Nat × Item)} {s t : List ℚ},
      scorePass f rows s = .ok t →
      ∀ p ∈ rows, f p.2 ≠ none → p.1 < s.length := by
  intro rows
  induction rows with
  | nil => intro s t _ p hp; simp at hp
  | cons q rest ih =>
    intro s t h p hp hf
    rcases q with ⟨i, m⟩
    rcases (List.mem_cons).mp hp with he | hm
    · cases hfm : f m with
      | none =>
        rw [he] at hf
        exact absurd hfm hf
      | some v =>
        simp only [scorePass, hfm] at h
        by_cases hb : i < s.length
        · rw [he]; exact hb
        · rw [dif_neg hb] at h; cases h
    · cases hfm : f m with
      | none =>
        simp only [scorePass, hfm] at h
        exact ih h p hm hf
      | some v =>
        simp only [scorePass, hfm] at h
        by_cases hb : i < s.length
        · rw [dif_pos hb] at h
          have := ih h p hm hf
          simpa using this
        · rw [dif_neg hb] at h; cases h

/-- Per-item contribution of the genre pass. -/
def genreContribution (prefs : UserPreferences) (m : Item) : ℚ :=
  if prefs.genres.isEmpty then 0 else genreOverlap prefs m * 2

/-- Per-item contribution of the actor pass. -/
def actorContribution (prefs : UserPreferences) (m : Item) : ℚ :=
  if prefs.actors.isEmpty then 0 else ((m.actors.map (fun a => actorOverlap prefs a * (3/2))).getD 0)

/-- Per-item contribution of the director pass. -/
def directorContribution (prefs : UserPreferences) (m : Item) : ℚ :=
  if prefs.directors.isEmpty then 0
  else ((m.director.bind (fun d => if directorHit prefs d then some (3/2) else none)).getD 0)

lemma zipWith_add_zero (post : List ℚ) (cat : List Item) (h : post.length = cat.length) :
    List.zipWith (fun s (_ : Item) => s + (0 : ℚ)) post cat = post := by
  induction post generalizing cat with
  | nil => rfl
  | cons x post' ih =>
    cases cat with
    | nil => simp at h
    | cons m cat' =>
      rw [List.zipWith_cons_cons, ih cat' (by simpa using h), add_zero]

lemma exceptBind_ok {α β : Type} (a : α) (k : α → Except String β) :
    (Except.ok a : Except String α).bind k = k a := rfl

/-- A guarded pass of _calculate_preference_scores over the consecutively
labelled frame produces the per-item contributions (0 everywhere when
the guard skips the pass). -/
lemma guardedPass_enumFrom (c : Bool) (f : Item → Option ℚ) (cat : List Item)
    (post : List ℚ) (h : post.length = cat.length) :
    (if c then (pure post : Except String (List ℚ)) else scorePass f (enumFrom 0 cat) post) =
      .ok (List.zipWith
        (fun s m => s + (if c then 0 else ((f m).getD 0))) post cat) := by
  cases c with
  | true =>
    simp only [reduceIte]
    rw [zipWith_add_zero post cat h]
    rfl
  | false =>
    have := scorePass_enumFrom f cat [] post h
    simpa using this

lemma genreContribution_eq (prefs : UserPreferences) (m : Item) :
    genreContribution prefs m =
      2 * (((genresOf m).dedup).filter (fun g => prefs.genres.contains g)).length := by
  unfold genreContribution genreOverlap
  by_cases h : prefs.genres.isEmpty
  · rw [if_pos h]
    rw [List.isEmpty_iff.mp h]
    simp
  · rw [if_neg h, mul_comm]

lemma actorContribution_eq (prefs : UserPreferences) (m : Item) :
    actorContribution prefs m =
      (3/2) * ((castLower m).dedup.filter
        (fun a => (lowerStripAll prefs.actors).contains a)).length := by
  unfold actorContribution actorOverlap castLower
  by_cases h : prefs.actors.isEmpty
  · rw [if_pos h]
    have hz : lowerStripAll prefs.actors = [] := by
      rw [List.isEmpty_iff.mp h]; rfl
    rw [hz]
    simp
  · rw [if_neg h]
    cases hm : m.actors with
    | none => simp [hm]
    | some a => simp [hm, mul_comm]

lemma directorContribution_eq (prefs : UserPreferences) (m : Item) :
    directorContribution prefs m = if directorMatch prefs m then 3/2 else 0 := by
  unfold directorContribution directorMatch directorHit
  by_cases h : prefs.directors.isEmpty
  · rw [if_pos h]
    have hz : lowerStripAll prefs.directors = [] := by
      rw [List.isEmpty_iff.mp h]; rfl
    rw [hz]
    cases hm : m.director with
    | none => simp [hm]
    | some d => simp [hm]
  · rw [if_neg h]
    cases hm : m.director with
    | none => simp [hm]
    | some d =>
      by_cases hd : pyLower (pyStrip d) ∈ lowerStripAll prefs.directors
      · simp [hm, hd]
      · simp [hm, hd]

lemma contributions_eq_specRawScore (prefs : UserPreferences) (m : Item) :
    ((0 + genreContribution prefs m) + actorContribution prefs m) + directorContribution prefs m
      = specRawScore prefs m := by
  rw [zero_add, genreContribution_eq, actorContribution_eq, directorContribution_eq]
  rfl

/-! ## Claim theorems: the raw preference score formula (C2) -/

/-- C2: on the (unfiltered) consecutively labelled frame, the scorer's
three array-filling passes compute exactly the closed per-item formula
2 x genre overlap (case-sensitive) + 1.5 x cast overlap
(case-insensitive) + 1.5 x director match (case-insensitive membership);
and an item with no overlapping signals scores exactly 0. -/
theorem preference_scores_eq_formula (df : List Item) (prefs : UserPreferences) :
    _calculate_preference_scores (enumFrom 0 df) prefs = .ok (df.map (specRawScore prefs)) ∧
      (∀ m : Item,
        (((genresOf m).dedup).filter (fun g => prefs.genres.contains g)).length = 0 →
        ((castLower m).dedup.filter (fun a => (lowerStripAll prefs.actors).contains a)).length = 0 →
        directorMatch prefs m = false →
        specRawScore prefs m = 0) := by
  constructor
  · simp only [_calculate_preference_scores]
    have hlen0 : (List.replicate (enumFrom 0 df).length (0 : ℚ)).length = df.length := by
      simp [enumFrom_length]
    have h1 := guardedPass_enumFrom prefs.genres.isEmpty
      (fun m => some (genreOverlap prefs m * 2)) df
      (List.replicate (enumFrom 0 df).length (0 : ℚ)) hlen0
    rw [h1, exceptBind_ok]
    set t1 := List.zipWith
      (fun s m => s + if prefs.genres.isEmpty then 0
        else ((some (genreOverlap prefs m * 2)).getD 0))
      (List.replicate (enumFrom 0 df).length (0 : ℚ)) df with ht1
    have hlen1 : t1.length = df.length := by
      rw [ht1]; simp [List.length_zipWith, hlen0]
    have h2 := guardedPass_enumFrom prefs.actors.isEmpty
      (fun m => m.actors.map (fun a => actorOverlap prefs a * (3/2))) df t1 hlen1
    rw [h2, exceptBind_ok]
    set t2 := List.zipWith
      (fun s m => s + if prefs.actors.isEmpty then 0
        else ((m.actors.map (fun a => actorOverlap prefs a * (3/2))).getD 0)) t1 df with ht2
    have hlen2 : t2.length = df.length := by
      rw [ht2]; simp [List.length_zipWith, hlen1]
    have h3 := guardedPass_enumFrom prefs.directors.isEmpty
      (fun m => m.director.bind (fun d => if directorHit prefs d then some (3/2) else none))
      df t2 hlen2
    rw [h3, exceptBind_ok]
    simp only [pure, Except.pure, Except.ok.injEq]
    apply List.ext_getElem
    · simp [List.length_zipWith, hlen2]
    · intro i hi hi2
      have hidf : i < df.length := by
        simpa [List.length_zipWith, hlen2] using hi
      have hit1 : i < t1.length := by rw [hlen1]; exact hidf
      have hit2 : i < t2.length := by rw [hlen2]; exact hidf
      have hir : i < (List.replicate (enumFrom 0 df).length (0 : ℚ)).length := by
        rw [hlen0]; exact hidf
      rw [List.getElem_zipWith, List.getElem_map]
      simp only [ht2, ht1, List.getElem_zipWith, List.getElem_replicate]
      have := contributions_eq_specRawScore prefs df[i]
      rw [← this]
      unfold genreContribution actorContribution directorContribution
      simp only [Option.getD_some]
  · intro m h1 h2 h3
    unfold specRawScore
    rw [h1, h2, h3]
    simp

/-- C2 witness: the theorem applied at a concrete catalog and concrete
preferences, with the no-signal hypotheses discharged on exA against
preferences that match nothing. -/
theorem preference_scores_eq_formula_witness :
    _calculate_preference_scores (enumFrom 0 [exA, exB])
        { genres := ["Drama"], actors := ["y"], directors := ["d one"],
          content_type := "all", language := "all" } =
      .ok ([exA, exB].map (specRawScore
        { genres := ["Drama"], actors := ["y"], directors := ["d one"],
          content_type := "all", language := "all" })) ∧
      specRawScore
        { genres := ["Scifi"], actors := ["nobody"], directors := ["no one"],
          content_type := "all", language := "all" } exA = 0 :=
  ⟨(preference_scores_eq_formula [exA, exB]
      { genres := ["Drama"], actors := ["y"], directors := ["d one"],
        content_type := "all", language := "all" }).1,
    (preference_scores_eq_formula [exA]
      { genres := ["Scifi"], actors := ["nobody"], directors := ["no one"],
        content_type := "all", language := "all" }).2 exA
      (by decide) (by decide) (by decide)⟩

/-! ## Min-max normalization lemmas and claim C3 -/

lemma foldl_min_le_init (a : ℚ) (l : List ℚ) : l.foldl min a ≤ a := by
  induction l generalizing a with
  | nil => simp
  | cons x t ih => exact le_trans (ih (min a x)) (min_le_left a x)

lemma foldl_min_le_mem {x : ℚ} {l : List ℚ} (h : x ∈ l) (a : ℚ) : l.foldl min a ≤ x := by
  induction l generalizing a with
  | nil => simp at h
  | cons y t ih =>
    rcases List.mem_cons.mp h with he | hm
    · subst he
      rw [List.foldl_cons]
      exact le_trans (foldl_min_le_init _ _) (min_le_right a x)
    · exact ih hm (min a y)

lemma foldl_min_mem (a : ℚ) (l : List ℚ) : l.foldl min a ∈ a :: l := by
  induction l generalizing a with
  | nil => simp
  | cons x t ih =>
    rcases List.mem_cons.mp (ih (min a x)) with he | hm
    · rcases min_choice a x with h | h
      · rw [List.foldl_cons, he, h]
        exact List.mem_cons_self _ _
      · rw [List.foldl_cons, he, h]
        exact List.mem_cons_of_mem _ (List.mem_cons_self _ _)
    · exact List.mem_cons_of_mem _ (List.mem_cons_of_mem _ hm)

lemma foldl_max_ge_init (a : ℚ) (l : List ℚ) : a ≤ l.foldl max a := by
  induction l generalizing a with
  | nil => simp
  | cons x t ih => exact le_trans (le_max_left a x) (ih (max a x))

lemma foldl_max_ge_mem {x : ℚ} {l : List ℚ} (h : x ∈ l) (a : ℚ) : x ≤ l.foldl max a := by
  induction l generalizing a with
  | nil => simp at h
  | cons y t ih =>
    rcases List.mem_cons.mp h with he | hm
    · subst he
      rw [List.foldl_cons]
      exact le_trans (le_max_right a x) (foldl_max_ge_init _ _)
    · exact ih hm (max a y)

lemma foldl_max_mem (a : ℚ) (l : List ℚ) : l.foldl max a ∈ a :: l := by
  induction l generalizing a with
  | nil => simp
  | cons x t ih =>
    rcases List.mem_cons.mp (ih (max a x)) with he | hm
    · rcases max_choice a x with h | h
      · rw [List.foldl_cons, he, h]
        exact List.mem_cons_self _ _
      · rw [List.foldl_cons, he, h]
        exact List.mem_cons_of_mem _ (List.mem_cons_self _ _)
    · exact List.mem_cons_of_mem _ (List.mem_cons_of_mem _ hm)

lemma minOf_le {x : ℚ} {xs : List ℚ} (h : x ∈ xs) : minOf xs ≤ x := by
  cases xs with
  | nil => simp at h
  | cons y t =>
    rcases List.mem_cons.mp h with he | hm
    · subst he
      exact foldl_min_le_init _ _
    · exact foldl_min_le_mem hm y

lemma le_maxOf {x : ℚ} {xs : List ℚ} (h : x ∈ xs) : x ≤ maxOf xs := by
  cases xs with
  | nil => simp at h
  | cons y t =>
    rcases List.mem_cons.mp h with he | hm
    · subst he
      exact foldl_max_ge_init _ _
    · exact foldl_max_ge_mem hm y

lemma minOf_mem {xs : List ℚ} (h : xs ≠ []) : minOf xs ∈ xs := by
  cases xs with
  | nil => exact absurd rfl h
  | cons y t => exact foldl_min_mem y t

lemma maxOf_mem {xs : List ℚ} (h : xs ≠ []) : maxOf xs ∈ xs := by
  cases xs with
  | nil => exact absurd rfl h
  | cons y t => exact foldl_max_mem y t

/-- C3: on a non-empty filtered set, the ranker's min-max normalization
never divides by zero: when all raw values are equal the preference
normalizer yields the all-zero vector and the quality normalizer the
all-one vector (no division happens), and in the dividing branch the
divisor max - min is strictly positive. -/
theorem normalization_never_divides_by_zero (xs : List ℚ) (hne : xs ≠ []) :
    ((∀ a ∈ xs, ∀ b ∈ xs, a = b) →
      normalizePrefScores xs = List.replicate xs.length 0 ∧
        normalizeImdbScores xs = List.replicate xs.length 1) ∧
      (¬ (∀ a ∈ xs, ∀ b ∈ xs, a = b) →
        minOf xs < maxOf xs ∧ maxOf xs - minOf xs ≠ 0) := by
  have hie : ¬ xs.isEmpty = true := by
    simpa [List.isEmpty_iff] using hne
  constructor
  · intro hall
    have heq : minOf xs = maxOf xs :=
      hall _ (minOf_mem hne) _ (maxOf_mem hne)
    have hnlt : ¬ minOf xs < maxOf xs := by
      rw [heq]; exact lt_irrefl _
    constructor
    · unfold normalizePrefScores
      rw [if_neg hie, if_neg hnlt]
      exact List.map_const' xs 0
    · unfold normalizeImdbScores
      rw [if_neg hie, if_neg hnlt]
      exact List.map_const' xs 1
  · intro hnall
    have hex : ∃ a ∈ xs, ∃ b ∈ xs, a ≠ b := by
      by_contra hc
      push_neg at hc
      exact hnall hc
    obtain ⟨a, ha, b, hb, hab⟩ := hex
    have hlt : minOf xs < maxOf xs := by
      rcases lt_or_gt_of_ne hab with h | h
      · exact lt_of_le_of_lt (minOf_le ha) (lt_of_lt_of_le h (le_maxOf hb))
      · exact lt_of_le_of_lt (minOf_le hb) (lt_of_lt_of_le h (le_maxOf ha))
    exact ⟨hlt, sub_ne_zero.mpr (ne_of_gt hlt)⟩

/-- C3 witness: both normalizers evaluated on the concrete all-equal
list [2, 2]. -/
theorem normalization_never_divides_by_zero_witness :
    normalizePrefScores [2, 2] = List.replicate 2 0 ∧
      normalizeImdbScores [2, 2] = List.replicate 2 1 :=
  (normalization_never_divides_by_zero [2, 2] (by decide)).1
    (by with_unfolding_all decide)

/-! ## Sorting machinery for the ranker (towards C1 and C7) -/

instance (xs : List ℚ) : IsTotal Nat (keyLe xs) :=
  ⟨fun i j => by
    unfold keyLe
    rcases lt_trichotomy (xs.getD i 0) (xs.getD j 0) with h | h | h
    · exact Or.inl (Or.inl h)
    · rcases le_total i j with hij | hij
      · exact Or.inl (Or.inr ⟨h, hij⟩)
      · exact Or.inr (Or.inr ⟨h.symm, hij⟩)
    · exact Or.inr (Or.inl h)⟩

instance (xs : List ℚ) : IsTrans Nat (keyLe xs) :=
  ⟨fun a b c hab hbc => by
    unfold keyLe at hab hbc ⊢
    rcases hab with h1 | ⟨h1, h1le⟩ <;> rcases hbc with h2 | ⟨h2, h2le⟩
    · exact Or.inl (lt_trans h1 h2)
    · exact Or.inl (h2 ▸ h1)
    · exact Or.inl (h1 ▸ h2)
    · exact Or.inr ⟨h1.trans h2, le_trans h1le h2le⟩⟩

instance (xs : List ℚ) : IsTotal Nat (keyGe xs) :=
  ⟨fun i j => by
    unfold keyGe
    rcases lt_trichotomy (xs.getD i 0) (xs.getD j 0) with h | h | h
    · exact Or.inr (Or.inl h)
    · rcases le_total i j with hij | hij
      · exact Or.inr (Or.inr ⟨h.symm, hij⟩)
      · exact Or.inl (Or.inr ⟨h, hij⟩)
    · exact Or.inl (Or.inl h)⟩

instance (xs : List ℚ) : IsTrans Nat (keyGe xs) :=
  ⟨fun a b c hab hbc => by
    unfold keyGe at hab hbc ⊢
    rcases hab with h1 | ⟨h1, h1le⟩ <;> rcases hbc with h2 | ⟨h2, h2le⟩
    · exact Or.inl (lt_trans h2 h1)
    · exact Or.inl (h2 ▸ h1)
    · exact Or.inl (h1 ▸ h2)
    · exact Or.inr ⟨h1.trans h2, le_trans h2le h1le⟩⟩

instance (xs : List ℚ) : IsAntisymm Nat (keyGe xs) :=
  ⟨fun a b hab hba => by
    unfold keyGe at hab hba
    rcases hab with h1 | ⟨h1, h1le⟩ <;> rcases hba with h2 | ⟨h2, h2le⟩
    · exact absurd (lt_trans h1 h2) (lt_irrefl _)
    · rw [h2] at h1
      exact absurd h1 (lt_irrefl _)
    · rw [h1] at h2
      exact absurd h2 (lt_irrefl _)
    · exact le_antisymm h2le h1le⟩

instance : IsTotal (Nat × ℚ) scoreDescIdxDesc :=
  ⟨fun a b => by
    unfold scoreDescIdxDesc
    rcases lt_trichotomy a.2 b.2 with h | h | h
    · exact Or.inr (Or.inl h)
    · rcases le_total a.1 b.1 with hij | hij
      · exact Or.inr (Or.inr ⟨h.symm, hij⟩)
      · exact Or.inl (Or.inr ⟨h, hij⟩)
    · exact Or.inl (Or.inl h)⟩

instance : IsTrans (Nat × ℚ) scoreDescIdxDesc :=
  ⟨fun a b c hab hbc => by
    unfold scoreDescIdxDesc at hab hbc ⊢
    rcases hab with h1 | ⟨h1, h1le⟩ <;> rcases hbc with h2 | ⟨h2, h2le⟩
    · exact Or.inl (lt_trans h2 h1)
    · exact Or.inl (h2 ▸ h1)
    · exact Or.inl (h1 ▸ h2)
    · exact Or.inr ⟨h1.trans h2, le_trans h2le h1le⟩⟩

instance : IsAntisymm (Nat × ℚ) scoreDescIdxDesc :=
  ⟨fun a b hab hba => by
    unfold scoreDescIdxDesc at hab hba
    rcases hab with h1 | ⟨h1, h1le⟩ <;> rcases hba with h2 | ⟨h2, h2le⟩
    · exact absurd (lt_trans h1 h2) (lt_irrefl _)
    · rw [h2] at h1
      exact absurd h1 (lt_irrefl _)
    · rw [h1] at h2
      exact absurd h2 (lt_irrefl _)
    · exact Prod.ext (le_antisymm h2le h1le) h1⟩

instance : IsTotal (Nat × Item) qualityDescIdxDesc :=
  ⟨fun a b => by
    unfold qualityDescIdxDesc
    rcases lt_trichotomy a.2.imdb_rating b.2.imdb_rating with h | h | h
    · exact Or.inr (Or.inl h)
    · rcases le_total a.1 b.1 with hij | hij
      · exact Or.inr (Or.inr ⟨h.symm, hij⟩)
      · exact Or.inl (Or.inr ⟨h, hij⟩)
    · exact Or.inl (Or.inl h)⟩

instance : IsTrans (Nat × Item) qualityDescIdxDesc :=
  ⟨fun a b c hab hbc => by
    unfold qualityDescIdxDesc at hab hbc ⊢
    rcases hab with h1 | ⟨h1, h1le⟩ <;> rcases hbc with h2 | ⟨h2, h2le⟩
    · exact Or.inl (lt_trans h2 h1)
    · exact Or.inl (h2 ▸ h1)
    · exact Or.inl (h1 ▸ h2)
    · exact Or.inr ⟨h1.trans h2, le_trans h2le h1le⟩⟩

instance (df : List Item) : IsAntisymm Nat (labelQualityDesc df) :=
  ⟨fun a b hab hba => by
    unfold labelQualityDesc at hab hba
    rcases hab with h1 | ⟨h1, h1le⟩ <;> rcases hba with h2 | ⟨h2, h2le⟩
    · exact absurd (lt_trans h1 h2) (lt_irrefl _)
    · rw [h2] at h1
      exact absurd h1 (lt_irrefl _)
    · rw [h1] at h2
      exact absurd h2 (lt_irrefl _)
    · exact le_antisymm h2le h1le⟩

lemma argsortAsc_perm (xs : List ℚ) : (argsortAsc xs).Perm (List.range xs.length) :=
  List.perm_insertionSort (keyLe xs) (List.range xs.length)

lemma argsortDesc_perm (xs : List ℚ) : (argsortDesc xs).Perm (List.range xs.length) :=
  (List.reverse_perm (argsortAsc xs)).trans (argsortAsc_perm xs)

lemma argsortDesc_sorted (xs : List ℚ) : List.Sorted (keyGe xs) (argsortDesc xs) := by
  unfold argsortDesc
  exact List.pairwise_reverse.mpr
    ((List.sorted_insertionSort (keyLe xs) (List.range xs.length)).imp
      (fun h => h.elim (fun h => Or.inl h) (fun h => Or.inr ⟨h.1.symm, h.2⟩)))

lemma argsortDesc_mem_lt {xs : List ℚ} {i : Nat} (h : i ∈ argsortDesc xs) : i < xs.length := by
  have := (argsortDesc_perm xs).mem_iff.mp h
  simpa using this

lemma argsortDesc_nodup (xs : List ℚ) : (argsortDesc xs).Nodup :=
  (argsortDesc_perm xs).symm.nodup (List.nodup_range xs.length)

/-! ## Filtered frame lemmas -/

lemma filteredRows_sublist (df : List Item) (prefs : UserPreferences) :
    List.Sublist (filteredRows df prefs) (enumFrom 0 df) := by
  unfold filteredRows
  by_cases h1 : prefs.content_type == "all" <;> by_cases h2 : prefs.language == "all" <;>
    simp only [h1, h2, if_pos, if_neg, Bool.false_eq_true, if_true, if_false]
  · exact List.Sublist.refl _
  · exact List.filter_sublist _
  · exact List.filter_sublist _
  · exact (List.filter_sublist _).trans (List.filter_sublist _)

lemma filteredRows_labels_pairwise (df : List Item) (prefs : UserPreferences) :
    ((filteredRows df prefs).map Prod.fst).Pairwise (· < ·) :=
  (enumFrom_map_fst_pairwise 0 df).sublist ((filteredRows_sublist df prefs).map Prod.fst)

lemma filteredRows_mem_char {df : List Item} {prefs : UserPreferences} {p : Nat × Item}
    (hp : p ∈ filteredRows df prefs) :
    p.1 < df.length ∧ df.getD p.1 default = p.2 := by
  have hmem : p ∈ enumFrom 0 df := (filteredRows_sublist df prefs).subset hp
  have := mem_enumFrom_char default hmem
  simpa using this

lemma filteredRows_label_lt (df : List Item) (prefs : UserPreferences) {i j : Nat}
    (hij : i < j) (hj : j < (filteredRows df prefs).length) :
    ((filteredRows df prefs).getD i (0, default)).1 <
      ((filteredRows df prefs).getD j (0, default)).1 := by
  have hp := filteredRows_labels_pairwise df prefs
  rw [List.pairwise_iff_getElem] at hp
  have hi : i < (filteredRows df prefs).length := lt_trans hij hj
  have := hp i j (by simpa using hi) (by simpa using hj) hij
  simp only [List.getElem_map] at this
  rw [List.getD_eq_getElem _ _ hi, List.getD_eq_getElem _ _ hj]
  exact this

lemma filteredRows_label_le_iff (df : List Item) (prefs : UserPreferences) {i j : Nat}
    (hi : i < (filteredRows df prefs).length) (hj : j < (filteredRows df prefs).length) :
    (((filteredRows df prefs).getD i (0, default)).1 ≤
        ((filteredRows df prefs).getD j (0, default)).1) ↔ i ≤ j := by
  constructor
  · intro h
    by_contra hc
    push_neg at hc
    exact absurd (filteredRows_label_lt df prefs hc hi) (not_lt.mpr h)
  · intro h
    rcases Nat.lt_or_ge i j with hlt | hge
    · exact le_of_lt (filteredRows_label_lt df prefs hlt hj)
    · have : i = j := le_antisymm h hge
      rw [this]

/-! ## Inversion lemmas for the ranker pipeline -/

lemma bind_ok_inv {α β : Type} {x : Except String α} {k : α → Except String β} {b : β}
    (h : x.bind k = .ok b) : ∃ a, x = .ok a ∧ k a = .ok b := by
  cases x with
  | error e => simp [Except.bind] at h
  | ok a => exact ⟨a, rfl, h⟩

lemma bind_error_of_error {α β : Type} {x : Except String α} {k : α → Except String β} {e : String}
    (h : x = .error e) : x.bind k = .error e := by
  rw [h]
  rfl

lemma _calculate_preference_scores_nil (prefs : UserPreferences) :
    _calculate_preference_scores ([] : List (Nat × Item)) prefs = .ok [] := by
  unfold _calculate_preference_scores
  by_cases h1 : prefs.genres.isEmpty <;> by_cases h2 : prefs.actors.isEmpty <;>
    by_cases h3 : prefs.directors.isEmpty <;>
      simp [h1, h2, h3, scorePass, Except.bind, pure, Except.pure]

lemma guarded_ok_length {c : Bool} {f : Item → Option ℚ} {rows : List (Nat × Item)}
    {s t : List ℚ} (h : (if c then pure s else scorePass f rows s) = .ok t) :
    t.length = s.length := by
  cases c with
  | true =>
    simp only [reduceIte, pure, Except.pure, Except.ok.injEq] at h
    rw [← h]
  | false =>
    simp only [Bool.false_eq_true, if_false] at h
    exact scorePass_length h

lemma _calculate_preference_scores_length {rows : List (Nat × Item)}
    {prefs : UserPreferences} {t : List ℚ}
    (h : _calculate_preference_scores rows prefs = .ok t) : t.length = rows.length := by
  unfold _calculate_preference_scores at h
  obtain ⟨s1, hs1, h⟩ := bind_ok_inv h
  obtain ⟨s2, hs2, h⟩ := bind_ok_inv h
  obtain ⟨s3, hs3, h⟩ := bind_ok_inv h
  have h1 := guarded_ok_length hs1
  have h2 := guarded_ok_length hs2
  have h3 := guarded_ok_length hs3
  have ht : t = s3 := by
    simpa [pure, Except.pure] using h.symm
  rw [ht, h3, h2, h1, List.length_replicate]

lemma normalizePrefScores_length (xs : List ℚ) :
    (normalizePrefScores xs).length = xs.length := by
  unfold normalizePrefScores
  split_ifs <;> simp

lemma normalizeImdbScores_length (xs : List ℚ) :
    (normalizeImdbScores xs).length = xs.length := by
  unfold normalizeImdbScores
  split_ifs <;> simp

/-- Inverting a successful combinedScores run: the preference scores
exist, and the combined vector is the weighted blend. -/
lemma combinedScores_ok_inv {df : List Item} {prefs : UserPreferences}
    {rating_weight preference_weight : ℚ} {cs : List ℚ}
    (h : combinedScores df prefs rating_weight preference_weight = .ok cs) :
    ∃ prefScores,
      _calculate_preference_scores (filteredRows df prefs) prefs = .ok prefScores ∧
      cs = List.zipWith (fun q p => rating_weight * q + preference_weight * p)
        (normalizeImdbScores ((filteredRows df prefs).map (fun p => p.2.imdb_rating)))
        (normalizePrefScores prefScores) := by
  unfold combinedScores at h
  obtain ⟨ps, hps, hk⟩ := bind_ok_inv h
  refine ⟨ps, hps, ?_⟩
  simpa [pure, Except.pure] using hk.symm

lemma combinedScores_ok_length {df : List Item} {prefs : UserPreferences}
    {rating_weight preference_weight : ℚ} {cs : List ℚ}
    (h : combinedScores df prefs rating_weight preference_weight = .ok cs) :
    cs.length = (filteredRows df prefs).length := by
  obtain ⟨ps, hps, hcs⟩ := combinedScores_ok_inv h
  have hpl : ps.length = (filteredRows df prefs).length :=
    _calculate_preference_scores_length hps
  rw [hcs]
  simp [List.length_zipWith, normalizeImdbScores_length, normalizePrefScores_length, hpl]

/-- Inverting a successful get_recommendations run. -/
lemma get_recommendations_ok {df : List Item} {prefs : UserPreferences}
    {top_n : Nat} {rating_weight preference_weight : ℚ} {l : List (Nat × ℚ)}
    (h : get_recommendations df prefs top_n rating_weight preference_weight = .ok l) :
    ∃ cs, combinedScores df prefs rating_weight preference_weight = .ok cs ∧
      l = ((argsortDesc cs).take (min top_n (filteredRows df prefs).length)).map
        (fun i => (((filteredRows df prefs).getD i (0, default)).1, cs.getD i 0)) := by
  unfold get_recommendations at h
  by_cases he : (filteredRows df prefs).isEmpty
  · rw [if_pos he] at h
    have hrows : filteredRows df prefs = [] := List.isEmpty_iff.mp he
    have hl : l = [] := by
      simpa [pure, Except.pure] using h.symm
    refine ⟨[], ?_, ?_⟩
    · simp only [combinedScores, hrows, _calculate_preference_scores_nil, exceptBind_ok]
      rfl
    · rw [hl, hrows]
      simp [argsortDesc, argsortAsc]
  · rw [if_neg he] at h
    cases hcs : combinedScores df prefs rating_weight preference_weight with
    | error e =>
      rw [hcs] at h
      simp [Except.bind] at h
    | ok cs =>
      rw [hcs, exceptBind_ok] at h
      refine ⟨cs, rfl, ?_⟩
      simpa [pure, Except.pure] using h.symm

lemma map_range_eq_zipWith (df : List Item) (prefs : UserPreferences) (cs : List ℚ)
    (hlen : cs.length = (filteredRows df prefs).length) :
    (List.range cs.length).map
        (fun i => (((filteredRows df prefs).getD i (0, default)).1, cs.getD i 0)) =
      List.zipWith (fun p c => (p.1, c)) (filteredRows df prefs) cs := by
  apply List.ext_getElem
  · simp [List.length_zipWith, hlen]
  · intro i hi hi2
    have hics : i < cs.length := by simpa using hi
    have hirows : i < (filteredRows df prefs).length := by rw [← hlen]; exact hics
    simp only [List.getElem_map, List.getElem_range, List.getElem_zipWith]
    rw [List.getD_eq_getElem _ _ hirows, List.getD_eq_getElem _ _ hics]

/-! ## Claim theorems: ranking order (C1) -/

/-- C1 counterexample: with two equally rated items and no preference
signal the combined scores tie, and get_recommendations returns them in
descending catalog index order [1, 0]; the claim's ascending tie-break
would return [0, 1]. -/
theorem rank_tie_break_not_ascending_cex :
    get_recommendations [exA, exB] exNoPrefs 5 (7/10) (3/10) =
        .ok [(1, 7/10), (0, 7/10)] ∧
      (Except.ok [(1, (7 : ℚ)/10), (0, 7/10)] : Except String (List (Nat × ℚ))) ≠
        .ok [(0, 7/10), (1, 7/10)] := by
  constructor
  · with_unfolding_all rfl
  · intro h
    injection h with h2
    simp at h2

/-- C1 (amended): whenever get_recommendations succeeds, its output is
the prefix of length min(top_n, filtered size) of a full ranking that is
a permutation of all filtered rows annotated with their combined scores
and along which combined scores are non-increasing. The relative order
of items with equal combined scores is left unspecified, because
np.argsort's default quicksort does not guarantee any tie order; this
tie-independent statement holds for every admissible argsort result. -/
theorem rank_returns_truncated_ranking_sorted_by_combined_desc
    (df : List Item) (prefs : UserPreferences) (top_n : Nat)
    (rating_weight preference_weight : ℚ) (cs : List ℚ) (l : List (Nat × ℚ))
    (hc : combinedScores df prefs rating_weight preference_weight = .ok cs)
    (hl : get_recommendations df prefs top_n rating_weight preference_weight = .ok l) :
    ∃ ranking : List (Nat × ℚ),
      ranking.Perm (List.zipWith (fun p c => (p.1, c)) (filteredRows df prefs) cs) ∧
      ranking.Pairwise (fun a b => b.2 ≤ a.2) ∧
      l = ranking.take (min top_n (filteredRows df prefs).length) := by
  obtain ⟨cs2, hc2, hl2⟩ := get_recommendations_ok hl
  rw [hc] at hc2
  injection hc2 with hcs
  subst hcs
  have hlen : cs.length = (filteredRows df prefs).length := combinedScores_ok_length hc
  refine ⟨(argsortDesc cs).map
    (fun i => (((filteredRows df prefs).getD i (0, default)).1, cs.getD i 0)), ?_, ?_, ?_⟩
  · have h1 := (argsortDesc_perm cs).map
      (fun i => (((filteredRows df prefs).getD i (0, default)).1, cs.getD i 0))
    rw [map_range_eq_zipWith df prefs cs hlen] at h1
    exact h1
  · refine List.pairwise_map.mpr ((argsortDesc_sorted cs).imp ?_)
    intro i j hge
    rcases hge with hlt | ⟨heq, _⟩
    · exact le_of_lt hlt
    · exact le_of_eq heq.symm
  · rw [hl2]
    exact List.map_take _ _ _

/-- C1 witness: the amended theorem applied at the concrete tie
scenario. -/
theorem rank_returns_truncated_ranking_sorted_by_combined_desc_witness :
    ∃ ranking : List (Nat × ℚ),
      ranking.Perm (List.zipWith (fun p c => (p.1, c)) (filteredRows [exA, exB] exNoPrefs)
        [(7 : ℚ)/10, 7/10]) ∧
      ranking.Pairwise (fun a b => b.2 ≤ a.2) ∧
      [((1 : Nat), (7 : ℚ)/10), (0, 7/10)] =
        ranking.take (min 5 (filteredRows [exA, exB] exNoPrefs).length) :=
  rank_returns_truncated_ranking_sorted_by_combined_desc [exA, exB] exNoPrefs 5 (7/10) (3/10)
    [(7 : ℚ)/10, 7/10] [(1, 7/10), (0, 7/10)]
    (by with_unfolding_all rfl) (by with_unfolding_all rfl)

/-! ## Claim theorems: zero preference weight (C7) -/

lemma getD_zipWith_q {f : ℚ → ℚ → ℚ} {l1 l2 : List ℚ} {i : Nat}
    (h1 : i < l1.length) (h2 : i < l2.length) :
    (List.zipWith f l1 l2).getD i 0 = f (l1.getD i 0) (l2.getD i 0) := by
  rw [List.getD_eq_getElem _ _ (by simp only [List.length_zipWith]; omega),
    List.getElem_zipWith, List.getD_eq_getElem _ _ h1, List.getD_eq_getElem _ _ h2]

lemma rows_getD_snd_eq (df : List Item) (prefs : UserPreferences) {p : Nat}
    (hp : p < (filteredRows df prefs).length) :
    df.getD ((filteredRows df prefs).getD p (0, default)).1 default =
      ((filteredRows df prefs).getD p (0, default)).2 := by
  have hmem : (filteredRows df prefs).getD p (0, default) ∈ filteredRows df prefs := by
    rw [List.getD_eq_getElem _ _ hp]
    exact List.getElem_mem _
  exact (filteredRows_mem_char hmem).2

/-- With preference weight 0 and positive rating weight, comparisons of
combined scores coincide with comparisons of the raw quality ratings of
the corresponding filtered rows. -/
lemma combined_quality_compat (df : List Item) (prefs : UserPreferences)
    (rating_weight : ℚ) (cs : List ℚ) (hrw : 0 < rating_weight)
    (hc : combinedScores df prefs rating_weight 0 = .ok cs)
    {p q : Nat} (hp : p < cs.length) (hq : q < cs.length) :
    (cs.getD p 0 < cs.getD q 0 ↔
      ((filteredRows df prefs).getD p (0, default)).2.imdb_rating <
        ((filteredRows df prefs).getD q (0, default)).2.imdb_rating) ∧
    (cs.getD p 0 = cs.getD q 0 ↔
      ((filteredRows df prefs).getD p (0, default)).2.imdb_rating =
        ((filteredRows df prefs).getD q (0, default)).2.imdb_rating) := by
  obtain ⟨ps, hps, hcs⟩ := combinedScores_ok_inv hc
  have hlen : cs.length = (filteredRows df prefs).length := combinedScores_ok_length hc
  have hplen : ps.length = (filteredRows df prefs).length :=
    _calculate_preference_scores_length hps
  set rows := filteredRows df prefs with hrows
  set ys := rows.map (fun r => r.2.imdb_rating) with hys
  have hyslen : ys.length = rows.length := by rw [hys]; exact List.length_map _ _
  have hprow : p < rows.length := hlen ▸ hp
  have hqrow : q < rows.length := hlen ▸ hq
  have hqpy : ys.getD p 0 = (rows.getD p (0, default)).2.imdb_rating := by
    rw [List.getD_eq_getElem _ _ (by rw [hyslen]; exact hprow)]
    simp only [hys, List.getElem_map]
    rw [List.getD_eq_getElem _ _ hprow]
  have hqqy : ys.getD q 0 = (rows.getD q (0, default)).2.imdb_rating := by
    rw [List.getD_eq_getElem _ _ (by rw [hyslen]; exact hqrow)]
    simp only [hys, List.getElem_map]
    rw [List.getD_eq_getElem _ _ hqrow]
  have hcsg : ∀ r : Nat, r < cs.length →
      cs.getD r 0 = rating_weight * (normalizeImdbScores ys).getD r 0 := by
    intro r hr
    have hrn : r < (normalizeImdbScores ys).length := by
      rw [normalizeImdbScores_length, hyslen, ← hlen]; exact hr
    have hrp : r < (normalizePrefScores ps).length := by
      rw [normalizePrefScores_length, hplen, ← hlen]; exact hr
    rw [hcs] at hr ⊢
    rw [getD_zipWith_q hrn hrp]
    ring
  have hne : ys ≠ [] := by
    intro h0
    rw [h0] at hyslen
    simp only [List.length_nil] at hyslen
    omega
  have hie : ¬ ys.isEmpty = true := by simpa [List.isEmpty_iff] using hne
  by_cases hb : minOf ys < maxOf ys
  · have hnorm : ∀ r : Nat, r < ys.length → (normalizeImdbScores ys).getD r 0 =
        (ys.getD r 0 - minOf ys) / (maxOf ys - minOf ys) := by
      intro r hr
      unfold normalizeImdbScores
      rw [if_neg hie, if_pos hb,
        List.getD_eq_getElem _ _ (by simpa using hr), List.getElem_map,
        List.getD_eq_getElem _ _ hr]
    have hd : (0 : ℚ) < maxOf ys - minOf ys := sub_pos.mpr hb
    have hpy : p < ys.length := by rw [hyslen]; exact hprow
    have hqy : q < ys.length := by rw [hyslen]; exact hqrow
    rw [hcsg p hp, hcsg q hq, hnorm p hpy, hnorm q hqy, ← hqpy, ← hqqy]
    constructor
    · rw [mul_lt_mul_left hrw, div_lt_div_iff_of_pos_right hd, sub_lt_sub_iff_right]
    · rw [mul_right_inj' (ne_of_gt hrw), div_left_inj' (ne_of_gt hd), sub_left_inj]
  · have hminmax : minOf ys = maxOf ys := by
      have h1 : minOf ys ≤ maxOf ys := le_maxOf (minOf_mem hne)
      exact le_antisymm h1 (not_lt.mp hb)
    have hallq : ∀ r : Nat, r < ys.length → ys.getD r 0 = minOf ys := by
      intro r hr
      have hmem : ys.getD r 0 ∈ ys := by
        rw [List.getD_eq_getElem _ _ hr]
        exact List.getElem_mem _
      exact le_antisymm (hminmax ▸ le_maxOf hmem) (minOf_le hmem)
    have hnorm : ∀ r : Nat, r < ys.length → (normalizeImdbScores ys).getD r 0 = 1 := by
      intro r hr
      unfold normalizeImdbScores
      rw [if_neg hie, if_neg hb,
        List.getD_eq_getElem _ _ (by simpa using hr), List.getElem_map]
    have hpy : p < ys.length := by rw [hyslen]; exact hprow
    have hqy : q < ys.length := by rw [hyslen]; exact hqrow
    have hqeq : (rows.getD p (0, default)).2.imdb_rating =
        (rows.getD q (0, default)).2.imdb_rating := by
      rw [← hqpy, ← hqqy, hallq p hpy, hallq q hqy]
    rw [hcsg p hp, hcsg q hq, hnorm p hpy, hnorm q hqy]
    constructor
    · constructor
      · intro h
        exact absurd h (lt_irrefl _)
      · intro h
        rw [hqeq] at h
        exact absurd h (lt_irrefl _)
    · constructor
      · intro _
        exact hqeq
      · intro _
        rfl

/-- C7 counterexample: with preference_weight = 0 and two equally rated
items, get_recommendations returns indices [1, 0], while sorting purely
by quality with ties broken by catalog index ASCENDING (as the claim
states) gives [0, 1]. -/
theorem rank_quality_tie_not_ascending_cex :
    get_recommendations [exA, exB] exNoPrefs 5 (7/10) 0 = .ok [(1, 7/10), (0, 7/10)] ∧
      ((List.insertionSort qualityDescIdxAsc (filteredRows [exA, exB] exNoPrefs)).map
        Prod.fst).take (min 5 (filteredRows [exA, exB] exNoPrefs).length) = [0, 1] ∧
      ([(1, (7 : ℚ)/10), (0, 7/10)] : List (Nat × ℚ)).map Prod.fst ≠ [0, 1] := by
  refine ⟨?_, ?_, ?_⟩
  · with_unfolding_all rfl
  · with_unfolding_all rfl
  · intro h
    simp at h

/-- C7 (amended): with preference_weight 0 and a positive rating_weight,
the labels returned by get_recommendations form the prefix of length
min(top_n, filtered size) of a permutation of the filtered rows along
which quality ratings are non-increasing — the ordering is purely by
quality descending. The order among equal-quality items is left
unspecified, because np.argsort's default quicksort does not guarantee
any tie order; this tie-independent statement holds for every admissible
argsort result. -/
theorem rank_zero_pref_weight_ordered_by_quality_desc
    (df : List Item) (prefs : UserPreferences) (top_n : Nat) (rating_weight : ℚ)
    (l : List (Nat × ℚ)) (hrw : 0 < rating_weight)
    (hl : get_recommendations df prefs top_n rating_weight 0 = .ok l) :
    ∃ ranking : List (Nat × Item),
      ranking.Perm (filteredRows df prefs) ∧
      ranking.Pairwise (fun a b => b.2.imdb_rating ≤ a.2.imdb_rating) ∧
      l.map Prod.fst =
        (ranking.map Prod.fst).take (min top_n (filteredRows df prefs).length) := by
  obtain ⟨cs, hc, hl2⟩ := get_recommendations_ok hl
  have hlen : cs.length = (filteredRows df prefs).length := combinedScores_ok_length hc
  refine ⟨(argsortDesc cs).map (fun i => (filteredRows df prefs).getD i (0, default)),
    ?_, ?_, ?_⟩
  · have hmm : (List.range cs.length).map
        (fun i => (filteredRows df prefs).getD i (0, default)) = filteredRows df prefs := by
      apply List.ext_getElem
      · simp [hlen]
      · intro i hi hi2
        have hics : i < cs.length := by simpa using hi
        simp only [List.getElem_map, List.getElem_range]
        rw [List.getD_eq_getElem _ _ (hlen ▸ hics)]
    have h1 := (argsortDesc_perm cs).map
      (fun i => (filteredRows df prefs).getD i (0, default))
    rw [hmm] at h1
    exact h1
  · have hcomb : (argsortDesc cs).Pairwise (fun i j => keyGe cs i j ∧ i ≠ j) :=
      (argsortDesc_sorted cs).and (argsortDesc_nodup cs)
    refine List.pairwise_map.mpr (hcomb.imp_of_mem ?_)
    intro i j hi hj hrel
    obtain ⟨hge, _⟩ := hrel
    have hilt : i < cs.length := argsortDesc_mem_lt hi
    have hjlt : j < cs.length := argsortDesc_mem_lt hj
    have hcompat := combined_quality_compat df prefs rating_weight cs hrw hc hjlt hilt
    rcases hge with hlt | ⟨heq, _⟩
    · exact le_of_lt (hcompat.1.mp hlt)
    · exact le_of_eq (hcompat.2.mp heq.symm)
  · rw [hl2, List.map_map, List.map_map]
    have hcomp1 : (Prod.fst ∘ fun i =>
        (((filteredRows df prefs).getD i (0, default)).1, cs.getD i 0)) =
        fun i => ((filteredRows df prefs).getD i (0, default)).1 := rfl
    have hcomp2 : (Prod.fst ∘ fun i => (filteredRows df prefs).getD i (0, default)) =
        fun i => ((filteredRows df prefs).getD i (0, default)).1 := rfl
    rw [hcomp1, hcomp2]
    exact List.map_take _ _ _

/-- C7 witness: the amended theorem applied at the concrete tie
scenario. -/
theorem rank_zero_pref_weight_ordered_by_quality_desc_witness :
    ∃ ranking : List (Nat × Item),
      ranking.Perm (filteredRows [exA, exB] exNoPrefs) ∧
      ranking.Pairwise (fun a b => b.2.imdb_rating ≤ a.2.imdb_rating) ∧
      ([((1 : Nat), (7 : ℚ)/10), (0, 7/10)] : List (Nat × ℚ)).map Prod.fst =
        (ranking.map Prod.fst).take (min 5 (filteredRows [exA, exB] exNoPrefs).length) :=
  rank_zero_pref_weight_ordered_by_quality_desc [exA, exB] exNoPrefs 5 (7/10)
    [(1, 7/10), (0, 7/10)] (by norm_num) (by with_unfolding_all rfl)

/-! ## Claim theorems: out-of-bounds score writes under filtering (C10) -/

/-- C10 counterexample: the series filter retains only the row with
original label 1 (score array size 1), actor preferences are non-empty,
yet rank SUCCEEDS because the retained row's actors cell is null and the
actor pass skips its write; the claim asserts every such query fails. -/
theorem filtered_scorer_skips_null_actor_cex :
    filteredRows [exA, exSeries] exActorPrefs = [(1, exSeries)] ∧
      (filteredRows [exA, exSeries] exActorPrefs).length ≤ 1 ∧
      get_recommendations [exA, exSeries] exActorPrefs 5 (7/10) (3/10) = .ok [(1, 7/10)] ∧
      (∀ e : String,
        get_recommendations [exA, exSeries] exActorPrefs 5 (7/10) (3/10) ≠ .error e) := by
  refine ⟨by decide, by decide, by with_unfolding_all rfl, ?_⟩
  intro e he
  rw [show get_recommendations [exA, exSeries] exActorPrefs 5 (7/10) (3/10) =
    .ok [(1, 7/10)] from by with_unfolding_all rfl] at he
  exact Except.noConfusion he

/-- C10 (amended): when filtering is active and some retained row's
original label is at least the filtered size, rank fails with the
out-of-bounds index error provided the scorer actually attempts a write
for that row: always when genre preferences are non-empty; when actor
preferences are non-empty and the row's actors cell is non-null; or when
director preferences are non-empty and the row's director matches. -/
theorem filtered_scorer_out_of_bounds_errors
    (df : List Item) (prefs : UserPreferences) (top_n : Nat)
    (rating_weight preference_weight : ℚ)
    (_hfilter : prefs.content_type ≠ "all" ∨ prefs.language ≠ "all")
    (h : ∃ p ∈ filteredRows df prefs,
      (filteredRows df prefs).length ≤ p.1 ∧ writeAttempted prefs p.2) :
    ∃ e, get_recommendations df prefs top_n rating_weight preference_weight = .error e := by
  obtain ⟨p, hp, hge, hwa⟩ := h
  have hne : ¬ (filteredRows df prefs).isEmpty = true := by
    simp only [List.isEmpty_iff]
    intro h0
    rw [h0] at hp
    simp at hp
  have hcalc : ∀ t, _calculate_preference_scores (filteredRows df prefs) prefs ≠ .ok t := by
    intro t ht
    unfold _calculate_preference_scores at ht
    obtain ⟨s1, hs1, ht⟩ := bind_ok_inv ht
    obtain ⟨s2, hs2, ht⟩ := bind_ok_inv ht
    obtain ⟨s3, hs3, _⟩ := bind_ok_inv ht
    have hlen1 : s1.length = (filteredRows df prefs).length := by
      rw [guarded_ok_length hs1, List.length_replicate]
    rcases hwa with hg | hac | hd
    · -- genre pass writes unconditionally
      have hgne : ¬ prefs.genres.isEmpty = true := by
        simpa [List.isEmpty_iff] using hg
      rw [if_neg hgne] at hs1
      have := scorePass_ok_bounds hs1 p hp (by simp)
      rw [List.length_replicate] at this
      omega
    · -- actor pass writes when the actors cell is non-null
      obtain ⟨hane, hcell⟩ := hac
      have hne2 : ¬ prefs.actors.isEmpty = true := by
        simpa [List.isEmpty_iff] using hane
      rw [if_neg hne2] at hs2
      have hfm : p.2.actors.map (fun a => actorOverlap prefs a * (3/2)) ≠ none := by
        cases hma : p.2.actors with
        | none => exact absurd hma hcell
        | some a => simp [hma]
      have := scorePass_ok_bounds hs2 p hp hfm
      rw [hlen1] at this
      omega
    · -- director pass writes exactly on a match
      obtain ⟨hdne, hmatch⟩ := hd
      have hne3 : ¬ prefs.directors.isEmpty = true := by
        simpa [List.isEmpty_iff] using hdne
      rw [if_neg hne3] at hs3
      have hfm : p.2.director.bind
          (fun d => if directorHit prefs d then some ((3 : ℚ)/2) else none) ≠ none := by
        unfold directorMatch at hmatch
        cases hmd : p.2.director with
        | none => rw [hmd] at hmatch; simp at hmatch
        | some d =>
          rw [hmd] at hmatch
          simp at hmatch
          simp [hmatch]
      have := scorePass_ok_bounds hs3 p hp hfm
      rw [guarded_ok_length hs2, hlen1] at this
      omega
  cases hres : _calculate_preference_scores (filteredRows df prefs) prefs with
  | ok t => exact absurd hres (hcalc t)
  | error e =>
    refine ⟨e, ?_⟩
    have hcs : combinedScores df prefs rating_weight preference_weight = .error e := by
      simp only [combinedScores, hres]
      rfl
    simp only [get_recommendations, if_neg hne, hcs]
    rfl

/-- C10 witness: the amended theorem applied at the concrete
genre-preference scenario, where the out-of-range write does happen. -/
theorem filtered_scorer_out_of_bounds_errors_witness :
    ∃ e, get_recommendations [exA, exSeries] exGenrePrefs 5 (7/10) (3/10) = .error e :=
  filtered_scorer_out_of_bounds_errors [exA, exSeries] exGenrePrefs 5 (7/10) (3/10)
    (Or.inl (by decide))
    ⟨(1, exSeries), by decide, by decide, Or.inl (by decide)⟩

end MovieRec
